import Mathlib

/-!
Shallow embedding of the history reconciliation and asynchronous-run
tracking subsystem of src/frontend/app.js.

Conventions of the embedding:
* JS nullable string fields become Option String; `none` stands for both
  null and undefined (the code never distinguishes them in this subsystem,
  except where noted in a doc comment).
* JS string truthiness: null, undefined and the empty string are falsy;
  the helper `truthy` mirrors this, and `orNull` mirrors the idiom
  `x || null`.
* Timestamps are ISO strings; the current time is passed explicitly as a
  nowIso parameter wherever the code calls new Date().toISOString().
* localStorage is modelled by the `saved` field of AppState; saveHistory
  (app.js lines 222-226) persists history.slice(0, 100) without
  truncating the in-memory array, and the embedding keeps that exactly.
* crypto ids are passed explicitly as a newId parameter.
-/

namespace App

/-- JS string truthiness for a nullable string: null/undefined and the
empty string are falsy. -/
def truthy (s : Option String) : Bool :=
  match s with
  | some v => v ≠ ""
  | none => false

/-- The idiom `x || null` on a nullable string: collapse the falsy empty
string to null. -/
def orNull (s : Option String) : Option String :=
  match s with
  | some v => if v = "" then none else some v
  | none => none

/-- The idiom `x || d` on a nullable string with a string default. -/
def strOr (a : Option String) (d : String) : String :=
  match a with
  | some v => if v = "" then d else v
  | none => d

/-- The selection_payload object of a run; only its
selected_reference_rows member is read by this subsystem. Rows are
opaque and modelled as strings. -/
structure SelectionPayload where
  selected_reference_rows : Option (List String)
deriving Repr, DecidableEq

/-- A server run, the shape of one /runs/list entry (spec section 6;
consumed by mapRunToHistory, ensureHistoryFromRun and
buildPipelineResultFromRun). The query object is opaque and modelled as
a string. -/
structure Run where
  id : String
  session_id : Option String
  status : String
  created_at : Option String
  finished_at : Option String
  query : Option String
  selected_reference_drug : Option String
  selection_file_path : Option String
  router_output_path : Option String
  router_output_text : Option String
  selection_rows_count : Option Nat
  selection_payload : Option SelectionPayload
deriving Repr, DecidableEq

/-- A history record, the shape built in handleSearchResult (app.js lines
321-338), mapRunToHistory (197-220) and ensureHistoryFromRun (521-544).
Fields a given constructor leaves undefined are `none`. -/
structure HistoryRecord where
  id : String
  sessionId : Option String
  createdAt : String
  updatedAt : String
  query : String
  xlsPath : Option String
  matchesCount : Option Nat
  referenceOptionsCount : Option Nat
  selectedReferenceDrug : Option String
  selectionJsonPath : Option String
  routerOutputPath : Option String
  analysisPreview : Option String
  analysisText : Option String
  selectionRows : Option (List String)
  runId : Option String
  synopsisRunId : Option String
  synopsisDocxUrl : Option String
  synopsisStatus : Option String
deriving Repr, DecidableEq

/-- A patch object as passed to patchHistory / patchHistoryByRunId.
The outer Option is key presence in the JS object (a key that is absent
does not overwrite; a key that is present overwrites, even with null).
The fields are exactly the union of the fields named at the patch call
sites (updateHistoryFromChoose, updateHistoryFromPipeline,
updateHistoryWithSynopsis); no call site ever patches id or sessionId. -/
structure Patch where
  updatedAt : Option String := none
  selectedReferenceDrug : Option (Option String) := none
  selectionJsonPath : Option (Option String) := none
  routerOutputPath : Option (Option String) := none
  analysisPreview : Option (Option String) := none
  analysisText : Option (Option String) := none
  selectionRows : Option (Option (List String)) := none
  runId : Option (Option String) := none
  synopsisRunId : Option (Option String) := none
  synopsisDocxUrl : Option (Option String) := none
  synopsisStatus : Option (Option String) := none
deriving Repr, DecidableEq

/-- The JS spread merge of a patch over a record:
state.history[idx] = ( ...state.history[idx], ...patch ) in patchHistory
(app.js line 549) and patchHistoryByRunId (line 562). Keys present in
the patch overwrite; absent keys leave the record's field untouched. -/
def applyPatch (h : HistoryRecord) (p : Patch) : HistoryRecord :=
  { h with
    updatedAt := p.updatedAt.getD h.updatedAt,
    selectedReferenceDrug := p.selectedReferenceDrug.getD h.selectedReferenceDrug,
    selectionJsonPath := p.selectionJsonPath.getD h.selectionJsonPath,
    routerOutputPath := p.routerOutputPath.getD h.routerOutputPath,
    analysisPreview := p.analysisPreview.getD h.analysisPreview,
    analysisText := p.analysisText.getD h.analysisText,
    selectionRows := p.selectionRows.getD h.selectionRows,
    runId := p.runId.getD h.runId,
    synopsisRunId := p.synopsisRunId.getD h.synopsisRunId,
    synopsisDocxUrl := p.synopsisDocxUrl.getD h.synopsisDocxUrl,
    synopsisStatus := p.synopsisStatus.getD h.synopsisStatus }

/-- Association-list model of the runningBySession Map: Map.set with
insertion order preserved and key overwrite in place. -/
def mapSet (m : List (String × String)) (k v : String) : List (String × String) :=
  match m with
  | [] => [(k, v)]
  | (k', v') :: rest => if k' = k then (k, v) :: rest else (k', v') :: mapSet rest k v

/-- Map.get on the association-list model. -/
def mapGet (m : List (String × String)) (k : String) : Option String :=
  match m with
  | [] => none
  | (k', v) :: rest => if k' = k then some v else mapGet rest k

/-- Map.delete on the association-list model. -/
def mapDelete (m : List (String × String)) (k : String) : List (String × String) :=
  m.filter (fun kv => kv.1 ≠ k)

/-- The mutable client state relevant to this subsystem (the fields of
the `state` object of app.js lines 9-22 that the core reads or writes,
plus `saved`, the current localStorage contents written by
saveHistory). pendingMessageShown models whether state.pendingMessage is
non-null. -/
structure AppState where
  history : List HistoryRecord
  activeHistoryId : Option String
  saved : List HistoryRecord
  pendingRunId : Option String
  pendingMessageShown : Bool
  pendingSessions : List String
  runningRunIds : List String
  runningBySession : List (String × String)
deriving Repr, DecidableEq

/-- The empty initial state. -/
def emptyState : AppState :=
  { history := [], activeHistoryId := none, saved := [], pendingRunId := none,
    pendingMessageShown := false, pendingSessions := [], runningRunIds := [],
    runningBySession := [] }

/-- saveHistory (app.js lines 222-226): persist history.slice(0, 100) to
localStorage. The in-memory history is not truncated. Persistence
failure is swallowed in the code and not modelled (the write either
happens or has no observable effect on this state). -/
def saveHistory (st : AppState) : AppState :=
  { st with saved := st.history.take 100 }

/-- First-match split of a list: the JS findIndex followed by reading
the element and keeping the remainder in order. Returns the first
element satisfying the predicate, together with the other elements in
their original order. -/
def findFirstSplit (pred : HistoryRecord → Bool) :
    List HistoryRecord → Option (HistoryRecord × List HistoryRecord)
  | [] => none
  | h :: t =>
    if pred h then some (h, t)
    else (findFirstSplit pred t).map (fun pr => (pr.1, h :: pr.2))

/-- Replace the first element satisfying the predicate by its patched
version, in place: findIndex followed by assignment at that index. -/
def patchFirst (pred : HistoryRecord → Bool) (p : Patch) :
    List HistoryRecord → List HistoryRecord
  | [] => []
  | h :: t => if pred h then applyPatch h p :: t else h :: patchFirst pred p t

/-- patchHistory (app.js lines 546-557): find the first record whose
sessionId strictly equals the given one; on a miss return with no
change; on a hit spread-merge the patch over it, set activeHistoryId to
the record's id, move the record to the front, and save. The
merged-record-first form is exactly the result of the code's
set-at-index followed by splice-and-unshift (which is the identity move
when the index is 0). -/
def patchHistory (sid : Option String) (p : Patch) (st : AppState) : AppState :=
  match findFirstSplit (fun h => h.sessionId == sid) st.history with
  | none => st
  | some (h, rest) =>
    let merged := applyPatch h p
    saveHistory { st with
      history := merged :: rest,
      activeHistoryId := some merged.id }

/-- patchHistoryByRunId (app.js lines 559-565): find the first record
whose runId strictly equals the given one; on a miss return with no
change; on a hit spread-merge the patch over it in place and save. No
promotion and no touch of activeHistoryId. -/
def patchHistoryByRunId (rid : String) (p : Patch) (st : AppState) : AppState :=
  if st.history.any (fun h => h.runId == some rid) then
    saveHistory { st with
      history := patchFirst (fun h => h.runId == some rid) p st.history }
  else st

/-- A synopsis object as returned by /synopsis/get. -/
structure Synopsis where
  id : Option String
  status : Option String
  download_url : Option String
deriving Repr, DecidableEq

/-- updateHistoryWithSynopsis (app.js lines 567-574): guard on a truthy
runId and a present synopsis, then patch the three synopsis fields by
runId. -/
def updateHistoryWithSynopsis (rid : Option String) (syn : Option Synopsis)
    (st : AppState) : AppState :=
  match rid, syn with
  | some r, some s =>
    if r = "" then st
    else patchHistoryByRunId r
      { synopsisRunId := some (orNull s.id),
        synopsisDocxUrl := some (orNull s.download_url),
        synopsisStatus := some (orNull s.status) } st
  | _, _ => st

/-- mapRunToHistory (app.js lines 197-220): project a server run to a
history record. The record id and runId are both the run id. -/
def mapRunToHistory (run : Run) (nowIso : String) : HistoryRecord :=
  let createdAt := strOr run.created_at nowIso
  { id := run.id,
    sessionId := orNull run.session_id,
    createdAt := createdAt,
    updatedAt := strOr run.finished_at (strOr run.created_at createdAt),
    query := run.query.getD "",
    xlsPath := none,
    matchesCount := none,
    referenceOptionsCount := none,
    selectedReferenceDrug := orNull run.selected_reference_drug,
    selectionJsonPath := orNull run.selection_file_path,
    routerOutputPath := orNull run.router_output_path,
    analysisPreview :=
      match run.router_output_text with
      | some t => if t = "" then none else some (t.take 3500)
      | none => none,
    analysisText := orNull run.router_output_text,
    selectionRows := run.selection_payload.bind SelectionPayload.selected_reference_rows,
    runId := some run.id,
    synopsisRunId := none, synopsisDocxUrl := none, synopsisStatus := none }

/-- The record literal of ensureHistoryFromRun (app.js lines 524-540):
like mapRunToHistory but with a fresh locally generated id, and with the
updatedAt fallback being the current time rather than the createdAt
variable (the two coincide observably). -/
def recordFromRunEnsure (run : Run) (nowIso : String) (newId : String) : HistoryRecord :=
  { id := newId,
    sessionId := orNull run.session_id,
    createdAt := strOr run.created_at nowIso,
    updatedAt := strOr run.finished_at (strOr run.created_at nowIso),
    query := run.query.getD "",
    xlsPath := none,
    matchesCount := none,
    referenceOptionsCount := none,
    selectedReferenceDrug := orNull run.selected_reference_drug,
    selectionJsonPath := orNull run.selection_file_path,
    routerOutputPath := orNull run.router_output_path,
    analysisPreview :=
      match run.router_output_text with
      | some t => if t = "" then none else some (t.take 3500)
      | none => none,
    analysisText := orNull run.router_output_text,
    selectionRows := run.selection_payload.bind SelectionPayload.selected_reference_rows,
    runId := some run.id,
    synopsisRunId := none, synopsisDocxUrl := none, synopsisStatus := none }

/-- ensureHistoryFromRun (app.js lines 521-544): if some record already
has this run's id as its runId do nothing, otherwise unshift a record
materialized from the run and save. Does not touch activeHistoryId. -/
def ensureHistoryFromRun (run : Run) (nowIso : String) (newId : String)
    (st : AppState) : AppState :=
  if st.history.any (fun h => h.runId == some run.id) then st
  else saveHistory { st with history := recordFromRunEnsure run nowIso newId :: st.history }

/-- The serverItems list of loadHistoryFromServer (app.js line 177). -/
def serverItemsOf (runs : List Run) (nowIso : String) : List HistoryRecord :=
  runs.map (fun r => mapRunToHistory r nowIso)

/-- The serverIds set of loadHistoryFromServer (app.js line 178),
modelled as the list of runId values of the server items. -/
def serverIdsOf (runs : List Run) (nowIso : String) : List (Option String) :=
  (serverItemsOf runs nowIso).map (fun h => h.runId)

/-- The serverSessions set of loadHistoryFromServer (app.js line 179):
the truthy sessionId values of the server items. -/
def serverSessionsOf (runs : List Run) (nowIso : String) : List (Option String) :=
  ((serverItemsOf runs nowIso).map (fun h => h.sessionId)).filter truthy

/-- The localOnly filter predicate of loadHistoryFromServer (app.js
lines 180-184): a local record survives when it is not claimed by a
truthy runId found among the server ids nor by a truthy sessionId found
among the server sessions. -/
def codeLocalOnly (runs : List Run) (nowIso : String) (h : HistoryRecord) : Bool :=
  !(truthy h.runId && (serverIdsOf runs nowIso).contains h.runId) &&
  !(truthy h.sessionId && (serverSessionsOf runs nowIso).contains h.sessionId)

/-- loadHistoryFromServer (app.js lines 173-195), success path: map the
server runs to history records, keep the local records that pass the
localOnly filter, and store the server projections followed by the
survivors. Also derives runningRunIds and the session-to-running-run
map. Does not call saveHistory. -/
def loadHistoryFromServer (runs : List Run) (nowIso : String) (st : AppState) : AppState :=
  let runningRuns := runs.filter (fun r => r.status == "running")
  { st with
    history := serverItemsOf runs nowIso ++ st.history.filter (codeLocalOnly runs nowIso),
    runningRunIds := runningRuns.map Run.id,
    runningBySession := runningRuns.foldl (fun m r =>
      match r.session_id with
      | some s => if s = "" then m else mapSet m s r.id
      | none => m) [] }

/-- The insertion idiom of handleSearchResult (app.js lines 339-341) and
ensureHistoryFromRun (lines 541-542): unshift the record and call
saveHistory. -/
def insertFront (rec : HistoryRecord) (st : AppState) : AppState :=
  saveHistory { st with history := rec :: st.history }

/-- A sequence of front insertions, oldest first. -/
def insertAll (recs : List HistoryRecord) (st : AppState) : AppState :=
  recs.foldl (fun s r => insertFront r s) st

/-- The fixed poll delay RUN_POLL_MS (app.js line 7), in milliseconds. -/
def RUN_POLL_MS : Nat := 3500

/-- The outcome of one /runs/get fetch inside pollRun: a successful
response carrying data.run (possibly absent), or a thrown
transport/timeout error. -/
inductive FetchResult where
  | ok (run : Option Run)
  | error
deriving Repr, DecidableEq

/-- What one pollRun body does after updating state: either schedule one
retry of the same fetch after a delay, or stop (terminal). -/
inductive StepAction where
  | scheduleRetry (delayMs : Nat)
  | stop
deriving Repr, DecidableEq

/-- The pending-state clearing block of pollRun's done branch (app.js
lines 103-109): null out the pending message and pending key, delete the
run from runningRunIds, and delete its session from runningBySession
when that session currently maps to this run. -/
def clearPendingForRun (runId : String) (run : Run) (st : AppState) : AppState :=
  { st with
    pendingMessageShown := false,
    pendingRunId := none,
    runningRunIds := st.runningRunIds.filter (fun r => r ≠ runId),
    runningBySession :=
      match run.session_id with
      | some s =>
        if s ≠ "" && (mapGet st.runningBySession s == some runId)
        then mapDelete st.runningBySession s
        else st.runningBySession
      | none => st.runningBySession }

/-- The selection part of buildPipelineResultFromRun's output. -/
structure PipelineSelection where
  run_id : Option String
  session_id : Option String
  saved_json_path : Option String
  selected_reference_drug : Option String
  selected_reference_rows_count : Option Nat
  selection_payload : Option SelectionPayload
deriving Repr, DecidableEq

/-- The router part of buildPipelineResultFromRun's output. In that
output analysis_text is always a present key whose value is null or a
string, never undefined; `none` here means present-null. -/
structure PipelineRouter where
  reference_drug : Option String
  saved_response_path : Option String
  analysis_text : Option String
deriving Repr, DecidableEq

/-- A pipeline result as consumed by updateHistoryFromPipeline. -/
structure PipelineResult where
  selection : PipelineSelection
  router : PipelineRouter
deriving Repr, DecidableEq

/-- buildPipelineResultFromRun (app.js lines 502-519). -/
def buildPipelineResultFromRun (run : Run) : PipelineResult :=
  { selection :=
    { run_id := some run.id,
      session_id := run.session_id,
      saved_json_path := orNull run.selection_file_path,
      selected_reference_drug := orNull run.selected_reference_drug,
      selected_reference_rows_count := run.selection_rows_count,
      selection_payload := run.selection_payload },
    router :=
    { reference_drug := orNull run.selected_reference_drug,
      saved_response_path := orNull run.router_output_path,
      analysis_text := run.router_output_text } }

/-- updateHistoryFromPipeline (app.js lines 487-500): patch the record
matching the selection's session id with the pipeline payload. Note the
code computes analysisText as String(r.analysis_text) whenever the key
is present, so a present-null analysis_text is stored as the literal
string "null"; the embedding keeps that faithfully. -/
def updateHistoryFromPipeline (result : PipelineResult) (nowIso : String)
    (st : AppState) : AppState :=
  let s := result.selection
  let r := result.router
  patchHistory s.session_id
    { updatedAt := some nowIso,
      selectedReferenceDrug := some s.selected_reference_drug,
      selectionJsonPath := some s.saved_json_path,
      routerOutputPath := some (orNull r.saved_response_path),
      analysisPreview := some
        (match r.analysis_text with
         | some t => if t = "" then none else some (t.take 3500)
         | none => none),
      analysisText := some (some
        (match r.analysis_text with
         | some t => t
         | none => "null")),
      selectionRows := some (s.selection_payload.bind SelectionPayload.selected_reference_rows),
      runId := some (orNull s.run_id) } st

/-- One body execution of pollRun (app.js lines 95-121) for a tracked
run id, given the outcome of its /runs/get fetch. A missing run, a
non-done status, or a thrown error all reschedule the same fetch after
RUN_POLL_MS and leave the state untouched; a done run clears the
pending state, materializes the record if needed, patches it with the
run payload, and stops. -/
def pollStep (runId : String) (nowIso : String) (newId : String)
    (fr : FetchResult) (st : AppState) : AppState × StepAction :=
  match fr with
  | .error => (st, .scheduleRetry RUN_POLL_MS)
  | .ok none => (st, .scheduleRetry RUN_POLL_MS)
  | .ok (some run) =>
    if run.status ≠ "done" then (st, .scheduleRetry RUN_POLL_MS)
    else
      let st1 := clearPendingForRun runId run st
      let st2 := ensureHistoryFromRun run nowIso newId st1
      let st3 := updateHistoryFromPipeline (buildPipelineResultFromRun run) nowIso st2
      (st3, .stop)

/-- Run pollRun repeatedly against a list of successive fetch outcomes:
each retry consumes the next outcome; a done outcome stops the loop.
Returns the number of fetches issued, the final state, and whether the
loop terminated (rather than running out of scripted outcomes). -/
def pollTrace (runId : String) (nowIso : String) (newId : String) :
    List FetchResult → AppState → Nat × AppState × Bool
  | [], st => (0, st, false)
  | fr :: rest, st =>
    match pollStep runId nowIso newId fr st with
    | (st', .stop) => (1, st', true)
    | (st', .scheduleRetry _) =>
      let out := pollTrace runId nowIso newId rest st'
      (out.1 + 1, out.2.1, out.2.2)

/-- getRunningRunIdForRecord (app.js lines 1050-1055): a confirmed
running run id tied to the record's runId, else the running run mapped
from its sessionId, else null. Falsy (null or empty) candidates yield
null exactly as the code's truthiness checks do. -/
def getRunningRunIdForRecord (st : AppState) (record : HistoryRecord) : Option String :=
  let bySession :=
    match record.sessionId with
    | some s =>
      if s ≠ "" then
        match mapGet st.runningBySession s with
        | some v => if v = "" then none else some v
        | none => none
      else none
    | none => none
  match record.runId with
  | some r => if r ≠ "" && st.runningRunIds.contains r then some r else bySession
  | none => bySession

/-- The pending key computed by maybeShowRunningForRecord (app.js lines
1057-1061): none when there is neither a confirmed running run nor an
optimistic pending session for this record, else the running run id or
the synthetic session token. -/
def pendingKeyFor (st : AppState) (record : HistoryRecord) : Option String :=
  let runId := getRunningRunIdForRecord st record
  let localPending :=
    match record.sessionId with
    | some s => s ≠ "" && st.pendingSessions.contains s
    | none => false
  if runId.isNone && !localPending then none
  else some
    (match runId with
     | some r => r
     | none => "session:" ++ record.sessionId.getD "")

/-- The app state together with the multiset of currently live pollRun
loops. A pollRun loop is live from the moment pollRun(runId) is invoked
until a fetch of that loop observes a done run; nothing else stops it
(there is no cancellation token in the code). -/
structure PollSystem where
  app : AppState
  activePolls : List String
deriving Repr, DecidableEq

/-- maybeShowRunningForRecord (app.js lines 1057-1069): compute the
pending key; bail out when there is none; bail out when it equals the
tracked pending key; otherwise replace the pending indicator, record
the key, and start a pollRun loop when the key is a confirmed run id. -/
def maybeShowRunningForRecord (record : HistoryRecord) (sys : PollSystem) : PollSystem :=
  match pendingKeyFor sys.app record with
  | none => sys
  | some key =>
    if sys.app.pendingRunId = some key then sys
    else
      { app := { sys.app with pendingRunId := some key, pendingMessageShown := true },
        activePolls :=
          match getRunningRunIdForRecord sys.app record with
          | some _ => key :: sys.activePolls
          | none => sys.activePolls }

/-- pollStep lifted to the poll system: a loop that observes done stops
and is removed from the live set. -/
def pollStepSys (runId : String) (nowIso : String) (newId : String)
    (fr : FetchResult) (sys : PollSystem) : PollSystem × StepAction :=
  match pollStep runId nowIso newId fr sys.app with
  | (st', .stop) => ({ app := st', activePolls := sys.activePolls.erase runId }, .stop)
  | (st', a) => ({ app := st', activePolls := sys.activePolls }, a)

/-- The present (truthy) values of a key across a record list, in
order. Two records share a non-null key value exactly when this list
has a duplicate. -/
def presentKeys (key : HistoryRecord → Option String) (l : List HistoryRecord) :
    List (Option String) :=
  (l.map key).filter truthy

/-- No two records of the list share the same present (non-null,
non-empty) value of the given key. -/
def dedupOn (key : HistoryRecord → Option String) (l : List HistoryRecord) : Prop :=
  (presentKeys key l).Nodup

instance (key : HistoryRecord → Option String) (l : List HistoryRecord) :
    Decidable (dedupOn key l) :=
  List.nodupDecidable _

/-- Modelled on the spec wording of reconciliation step 3: a local
record is local-only iff its runId is absent from the set of server
run ids and its sessionId is absent from the set of non-null server
session ids. A record whose key is itself absent (null or the falsy
empty string) is vacuously absent from the corresponding set. -/
def localOnlySpec (runs : List Run) (h : HistoryRecord) : Prop :=
  (∀ r ∈ runs, h.runId ≠ some r.id) ∧
  (∀ r ∈ runs, orNull r.session_id = none ∨ h.sessionId ≠ orNull r.session_id)

instance (runs : List Run) (h : HistoryRecord) : Decidable (localOnlySpec runs h) := by
  unfold localOnlySpec
  infer_instance

/-- A record with the given id and every optional field absent. -/
def mkRec (i : String) : HistoryRecord :=
  { id := i, sessionId := none, createdAt := "t0", updatedAt := "t0", query := "",
    xlsPath := none, matchesCount := none, referenceOptionsCount := none,
    selectedReferenceDrug := none, selectionJsonPath := none, routerOutputPath := none,
    analysisPreview := none, analysisText := none, selectionRows := none,
    runId := none, synopsisRunId := none, synopsisDocxUrl := none,
    synopsisStatus := none }

/-- n records with distinct numeric ids, used to drive insertion
sequences. -/
def mkRecs (n : Nat) : List HistoryRecord :=
  (List.range n).map (fun i => mkRec (toString i))

/-- A run with the given id, session and status and no result payload. -/
def mkRun (i : String) (s : Option String) (status : String) : Run :=
  { id := i, session_id := s, status := status, created_at := some "c0",
    finished_at := none, query := none, selected_reference_drug := none,
    selection_file_path := none, router_output_path := none,
    router_output_text := none, selection_rows_count := none,
    selection_payload := none }

/-- Concrete fixtures for the evaluated instances below. -/
def cRunDone : Run := mkRun "r1" (some "s1") "done"

def cRunRun : Run := mkRun "r1" (some "s1") "running"

def cRunDupSession : Run := mkRun "r2" (some "s1") "done"

def cRunOther : Run := mkRun "r2" (some "s2") "done"

def cRecL : HistoryRecord :=
  { mkRec "l1" with sessionId := some "s9", runId := some "r9" }

def cRecDrop : HistoryRecord :=
  { mkRec "l2" with sessionId := some "s1", runId := none }

def cStateL : AppState :=
  { emptyState with history := [cRecL, cRecDrop] }

def cA : HistoryRecord := { mkRec "a" with runId := some "r2" }

def cB : HistoryRecord := { mkRec "b" with runId := some "r1" }

def cSt4 : AppState := { emptyState with history := [cA, cB] }

def cPatch : Patch := { selectedReferenceDrug := some (some "X") }

def cRecR1 : HistoryRecord := { mkRec "a" with runId := some "r1" }

def cRecR2 : HistoryRecord := { mkRec "b" with runId := some "r2" }

def cSys0 : PollSystem :=
  { app := { emptyState with runningRunIds := ["r1", "r2"] }, activePolls := [] }

def cSys1 : PollSystem := maybeShowRunningForRecord cRecR1 cSys0

/-! Helper lemmas. -/

theorem opt_getD_absorb {α : Type} (o : Option α) (x : α) :
    o.getD (o.getD x) = o.getD x := by
  cases o <;> rfl

theorem applyPatch_sessionId (h : HistoryRecord) (p : Patch) :
    (applyPatch h p).sessionId = h.sessionId := rfl

theorem applyPatch_recId (h : HistoryRecord) (p : Patch) :
    (applyPatch h p).id = h.id := rfl

theorem mapRunToHistory_runId (r : Run) (nowIso : String) :
    (mapRunToHistory r nowIso).runId = some r.id := rfl

theorem mapRunToHistory_sessionId (r : Run) (nowIso : String) :
    (mapRunToHistory r nowIso).sessionId = orNull r.session_id := rfl

theorem serverIdsOf_eq (runs : List Run) (nowIso : String) :
    serverIdsOf runs nowIso = runs.map (fun r => some r.id) := by
  simp only [serverIdsOf, serverItemsOf, List.map_map]
  rfl

theorem serverSessionsOf_eq (runs : List Run) (nowIso : String) :
    serverSessionsOf runs nowIso =
      (runs.map (fun r => orNull r.session_id)).filter truthy := by
  simp only [serverSessionsOf, serverItemsOf, List.map_map]
  rfl

theorem orNull_ne_empty (x : Option String) (s : String) (h : orNull x = some s) :
    s ≠ "" := by
  cases x with
  | none => simp [orNull] at h
  | some v =>
    by_cases hv : v = "" <;> simp [orNull, hv] at h
    subst h; exact hv

theorem findFirstSplit_none {pred : HistoryRecord → Bool} :
    ∀ {l : List HistoryRecord}, (∀ x ∈ l, pred x = false) → findFirstSplit pred l = none := by
  intro l
  induction l with
  | nil => intro _; rfl
  | cons a t ih =>
    intro hall
    have ha := hall a (List.mem_cons_self a t)
    rw [findFirstSplit, if_neg (by simp [ha]), ih (fun x hx => hall x (List.mem_cons_of_mem a hx))]
    rfl

theorem findFirstSplit_append {pred : HistoryRecord → Bool} :
    ∀ (pre : List HistoryRecord) (h : HistoryRecord) (post : List HistoryRecord),
      (∀ x ∈ pre, pred x = false) → pred h = true →
      findFirstSplit pred (pre ++ h :: post) = some (h, pre ++ post) := by
  intro pre
  induction pre with
  | nil =>
    intro h post _ hh
    simp [findFirstSplit, hh]
  | cons a t ih =>
    intro h post hall hh
    have ha := hall a (List.mem_cons_self a t)
    have hrec := ih h post (fun x hx => hall x (List.mem_cons_of_mem a hx)) hh
    show findFirstSplit pred (a :: (t ++ h :: post)) = some (h, a :: (t ++ post))
    rw [findFirstSplit, if_neg (by simp [ha]), hrec]
    rfl

theorem findFirstSplit_sound {pred : HistoryRecord → Bool} :
    ∀ {l : List HistoryRecord} {h : HistoryRecord} {r : List HistoryRecord},
      findFirstSplit pred l = some (h, r) →
      ∃ pre post, l = pre ++ h :: post ∧ r = pre ++ post ∧
        (∀ x ∈ pre, pred x = false) ∧ pred h = true := by
  intro l
  induction l with
  | nil => intro h r e; simp [findFirstSplit] at e
  | cons a t ih =>
    intro h r e
    by_cases ha : pred a
    · rw [findFirstSplit, if_pos ha] at e
      simp only [Option.some.injEq, Prod.mk.injEq] at e
      obtain ⟨e1, e2⟩ := e
      subst e1; subst e2
      exact ⟨[], t, rfl, rfl, by simp, ha⟩
    · rw [findFirstSplit, if_neg ha] at e
      cases e2 : findFirstSplit pred t with
      | none =>
        rw [e2] at e
        exact Option.noConfusion e
      | some pr =>
        rw [e2] at e
        have e' : (pr.1, a :: pr.2) = (h, r) := Option.some.inj e
        have epr1 : pr.1 = h := congrArg Prod.fst e'
        have epr2 : a :: pr.2 = r := congrArg Prod.snd e'
        obtain ⟨pre, post, ht, hr, hpre, hp⟩ := ih e2
        refine ⟨a :: pre, post, ?_, ?_, ?_, ?_⟩
        · rw [ht, epr1]; rfl
        · rw [← epr2, hr]; rfl
        · intro x hx
          rcases List.mem_cons.mp hx with hx | hx
          · subst hx; simpa using ha
          · exact hpre x hx
        · rw [← epr1]; exact hp

theorem patchFirst_append {pred : HistoryRecord → Bool} (p : Patch) :
    ∀ (pre : List HistoryRecord) (h : HistoryRecord) (post : List HistoryRecord),
      (∀ x ∈ pre, pred x = false) → pred h = true →
      patchFirst pred p (pre ++ h :: post) = pre ++ applyPatch h p :: post := by
  intro pre
  induction pre with
  | nil =>
    intro h post _ hh
    simp [patchFirst, hh]
  | cons a t ih =>
    intro h post hall hh
    have ha := hall a (List.mem_cons_self a t)
    show patchFirst pred p (a :: (t ++ h :: post)) = a :: (t ++ applyPatch h p :: post)
    rw [patchFirst, if_neg (by simp [ha]),
      ih h post (fun x hx => hall x (List.mem_cons_of_mem a hx)) hh]

theorem patchFirst_map_sessionId (pred : HistoryRecord → Bool) (p : Patch) :
    ∀ (l : List HistoryRecord),
      (patchFirst pred p l).map HistoryRecord.sessionId =
        l.map HistoryRecord.sessionId := by
  intro l
  induction l with
  | nil => rfl
  | cons a t ih =>
    by_cases ha : pred a
    · simp [patchFirst, ha, applyPatch_sessionId]
    · simp [patchFirst, ha, ih]

theorem presentKeys_append (key : HistoryRecord → Option String)
    (a b : List HistoryRecord) :
    presentKeys key (a ++ b) = presentKeys key a ++ presentKeys key b := by
  simp [presentKeys, List.filter_append]

theorem presentKeys_filter_sublist (key : HistoryRecord → Option String)
    (q : HistoryRecord → Bool) (l : List HistoryRecord) :
    List.Sublist (presentKeys key (l.filter q)) (presentKeys key l) :=
  ((List.filter_sublist l).map key).filter truthy

theorem loadHistory_history (runs : List Run) (nowIso : String) (st : AppState) :
    (loadHistoryFromServer runs nowIso st).history =
      serverItemsOf runs nowIso ++ st.history.filter (codeLocalOnly runs nowIso) := rfl

theorem presentKeys_runId_server (runs : List Run) (nowIso : String) :
    presentKeys HistoryRecord.runId (serverItemsOf runs nowIso) =
      (runs.map (fun r => some r.id)).filter truthy := by
  have : (serverItemsOf runs nowIso).map HistoryRecord.runId = serverIdsOf runs nowIso := rfl
  rw [presentKeys, this, serverIdsOf_eq]

theorem presentKeys_sessionId_server (runs : List Run) (nowIso : String) :
    presentKeys HistoryRecord.sessionId (serverItemsOf runs nowIso) =
      serverSessionsOf runs nowIso := rfl

theorem contains_false_iff (l : List (Option String)) (a : Option String) :
    l.contains a = false ↔ a ∉ l := by
  constructor
  · intro h hm
    have h2 : l.contains a = true := List.elem_eq_true_of_mem hm
    rw [h] at h2
    exact Bool.noConfusion h2
  · intro h
    by_contra hne
    have h2 : l.contains a = true := by
      cases hc : l.contains a
      · exact absurd hc hne
      · rfl
    exact h (List.mem_of_elem_eq_true h2)

theorem codeLocalOnly_true_iff (runs : List Run) (nowIso : String) (h : HistoryRecord) :
    codeLocalOnly runs nowIso h = true ↔
      (truthy h.runId = true → h.runId ∉ serverIdsOf runs nowIso) ∧
      (truthy h.sessionId = true → h.sessionId ∉ serverSessionsOf runs nowIso) := by
  simp only [codeLocalOnly, Bool.and_eq_true, Bool.not_eq_true']
  rw [Bool.and_eq_false_iff, Bool.and_eq_false_iff]
  rw [contains_false_iff, contains_false_iff]
  constructor
  · rintro ⟨h1, h2⟩
    refine ⟨fun ht => ?_, fun ht => ?_⟩
    · rcases h1 with h1 | h1
      · rw [ht] at h1; exact absurd h1 (by simp)
      · exact h1
    · rcases h2 with h2 | h2
      · rw [ht] at h2; exact absurd h2 (by simp)
      · exact h2
  · rintro ⟨h1, h2⟩
    constructor
    · by_cases ht : truthy h.runId = true
      · exact Or.inr (h1 ht)
      · left; simpa using ht
    · by_cases ht : truthy h.sessionId = true
      · exact Or.inr (h2 ht)
      · left; simpa using ht

theorem truthy_some_of_ne (s : String) (hs : s ≠ "") : truthy (some s) = true := by
  simp [truthy, hs]

theorem not_truthy_cases (x : Option String) (h : truthy x ≠ true) :
    x = none ∨ x = some "" := by
  cases x with
  | none => exact Or.inl rfl
  | some v =>
    right
    by_cases hv : v = ""
    · rw [hv]
    · exact absurd (truthy_some_of_ne v hv) h

theorem localOnlySpec_iff_code (runs : List Run) (nowIso : String)
    (hWF : ∀ r ∈ runs, r.id ≠ "") (h : HistoryRecord) :
    codeLocalOnly runs nowIso h = true ↔ localOnlySpec runs h := by
  rw [codeLocalOnly_true_iff]
  constructor
  · rintro ⟨h1, h2⟩
    constructor
    · intro r hr heq
      have hne := hWF r hr
      have ht : truthy h.runId = true := by rw [heq]; exact truthy_some_of_ne _ hne
      apply h1 ht
      rw [serverIdsOf_eq, heq]
      exact List.mem_map.mpr ⟨r, hr, rfl⟩
    · intro r hr
      by_cases hn : orNull r.session_id = none
      · exact Or.inl hn
      · right
        intro heq
        obtain ⟨s, hs⟩ := Option.ne_none_iff_exists'.mp hn
        have hse := orNull_ne_empty _ _ hs
        have ht : truthy h.sessionId = true := by
          rw [heq, hs]; exact truthy_some_of_ne _ hse
        apply h2 ht
        rw [serverSessionsOf_eq, heq, hs]
        exact List.mem_filter.mpr
          ⟨List.mem_map.mpr ⟨r, hr, hs⟩, truthy_some_of_ne _ hse⟩
  · rintro ⟨h1, h2⟩
    refine ⟨fun ht hm => ?_, fun ht hm => ?_⟩
    · rw [serverIdsOf_eq] at hm
      obtain ⟨r, hr, heq⟩ := List.mem_map.mp hm
      exact h1 r hr heq.symm
    · rw [serverSessionsOf_eq] at hm
      obtain ⟨hm2, _⟩ := List.mem_filter.mp hm
      obtain ⟨r, hr, heq⟩ := List.mem_map.mp hm2
      rcases h2 r hr with hn | hne
      · rw [hn] at heq
        rw [← heq] at ht
        simp [truthy] at ht
      · exact hne heq.symm

/-- C2: reconcile keeps a local record exactly when its runId is absent
from the set of server run ids and its sessionId is absent from the set
of non-null server session ids, and the result is the server
projections in server order followed by the surviving local-only
records in their prior relative order. Absence of a key means the key
is null (or the falsy empty string, which the code treats as null); the
hypothesis hWF rules out degenerate empty-string server run ids, which
the spec's vocabulary cannot express. -/
theorem reconcile_localOnly_spec (runs : List Run) (nowIso : String) (st : AppState)
    (hWF : ∀ r ∈ runs, r.id ≠ "") :
    (loadHistoryFromServer runs nowIso st).history =
      runs.map (fun r => mapRunToHistory r nowIso) ++
      st.history.filter (fun h => decide (localOnlySpec runs h)) := by
  rw [loadHistory_history]
  have hfe : st.history.filter (codeLocalOnly runs nowIso) =
      st.history.filter (fun h => decide (localOnlySpec runs h)) := by
    apply List.filter_congr
    intro h _
    rw [Bool.eq_iff_iff, decide_eq_true_eq]
    exact localOnlySpec_iff_code runs nowIso hWF h
  rw [hfe]
  rfl

theorem saveHistory_history (st : AppState) : (saveHistory st).history = st.history := rfl

theorem recordFromRunEnsure_runId (run : Run) (nowIso newId : String) :
    (recordFromRunEnsure run nowIso newId).runId = some run.id := rfl

theorem nodup_presentKeys_server_runId (runs : List Run) (nowIso : String)
    (hR1 : (runs.map Run.id).Nodup) :
    (presentKeys HistoryRecord.runId (serverItemsOf runs nowIso)).Nodup := by
  rw [presentKeys_runId_server]
  apply List.Nodup.filter
  have h2 : runs.map (fun r => some r.id) = (runs.map Run.id).map some := by
    rw [List.map_map]
    rfl
  rw [h2]
  exact hR1.map (Option.some_injective _)

theorem dedup_reconcile_runId (runs : List Run) (nowIso : String) (st : AppState)
    (hR1 : (runs.map Run.id).Nodup)
    (hL1 : dedupOn HistoryRecord.runId st.history) :
    dedupOn HistoryRecord.runId (loadHistoryFromServer runs nowIso st).history := by
  show (presentKeys HistoryRecord.runId (loadHistoryFromServer runs nowIso st).history).Nodup
  rw [loadHistory_history, presentKeys_append, List.nodup_append]
  refine ⟨nodup_presentKeys_server_runId runs nowIso hR1,
    List.Nodup.sublist (presentKeys_filter_sublist _ _ _) hL1, ?_⟩
  intro x hxA hxB
  rw [presentKeys_runId_server] at hxA
  obtain ⟨hxm, hxt⟩ := List.mem_filter.mp hxA
  simp only [presentKeys] at hxB
  obtain ⟨hxm2, _⟩ := List.mem_filter.mp hxB
  obtain ⟨h, hh, heq⟩ := List.mem_map.mp hxm2
  obtain ⟨hhm, hcode⟩ := List.mem_filter.mp hh
  have hloc := (codeLocalOnly_true_iff runs nowIso h).mp hcode
  apply hloc.1 (by rw [heq]; exact hxt)
  rw [heq, serverIdsOf_eq]
  exact hxm

theorem dedup_reconcile_sessionId (runs : List Run) (nowIso : String) (st : AppState)
    (hR2 : ((runs.map (fun r => orNull r.session_id)).filter truthy).Nodup)
    (hL2 : dedupOn HistoryRecord.sessionId st.history) :
    dedupOn HistoryRecord.sessionId (loadHistoryFromServer runs nowIso st).history := by
  show (presentKeys HistoryRecord.sessionId (loadHistoryFromServer runs nowIso st).history).Nodup
  rw [loadHistory_history, presentKeys_append, List.nodup_append]
  refine ⟨?_, List.Nodup.sublist (presentKeys_filter_sublist _ _ _) hL2, ?_⟩
  · rw [presentKeys_sessionId_server, serverSessionsOf_eq]
    exact hR2
  · intro x hxA hxB
    rw [presentKeys_sessionId_server] at hxA
    simp only [presentKeys] at hxB
    obtain ⟨hxm2, hxt⟩ := List.mem_filter.mp hxB
    obtain ⟨h, hh, heq⟩ := List.mem_map.mp hxm2
    obtain ⟨hhm, hcode⟩ := List.mem_filter.mp hh
    have hloc := (codeLocalOnly_true_iff runs nowIso h).mp hcode
    apply hloc.2 (by rw [heq]; exact hxt)
    rw [heq]
    exact hxA

theorem dedup_ensure (run : Run) (nowIso newId : String) (st : AppState)
    (hd : dedupOn HistoryRecord.runId st.history) :
    dedupOn HistoryRecord.runId (ensureHistoryFromRun run nowIso newId st).history := by
  unfold ensureHistoryFromRun
  cases g : st.history.any (fun h => h.runId == some run.id) with
  | true => simpa [g] using hd
  | false =>
    simp only [g, Bool.false_eq_true, if_false, saveHistory_history]
    show (presentKeys HistoryRecord.runId
      (recordFromRunEnsure run nowIso newId :: st.history)).Nodup
    simp only [presentKeys, List.map_cons, recordFromRunEnsure_runId, List.filter_cons]
    by_cases hid : run.id = ""
    · rw [if_neg (by simp [truthy, hid])]
      exact hd
    · rw [if_pos (truthy_some_of_ne _ hid)]
      refine List.nodup_cons.mpr ⟨?_, hd⟩
      intro hmem
      obtain ⟨hmem2, _⟩ := List.mem_filter.mp hmem
      obtain ⟨h, hh, heq⟩ := List.mem_map.mp hmem2
      have : st.history.any (fun h => h.runId == some run.id) = true :=
        List.any_eq_true.mpr ⟨h, hh, beq_iff_eq.mpr heq⟩
      rw [g] at this
      exact Bool.noConfusion this

theorem dedup_insert_noRun (rec : HistoryRecord) (st : AppState)
    (hrid : rec.runId = none)
    (hd : dedupOn HistoryRecord.runId st.history) :
    dedupOn HistoryRecord.runId (insertFront rec st).history := by
  show (presentKeys HistoryRecord.runId (rec :: st.history)).Nodup
  simp only [presentKeys, List.map_cons, List.filter_cons, hrid]
  rw [if_neg (by simp [truthy])]
  exact hd

theorem dedup_patch_sessionId (sid : Option String) (p : Patch) (st : AppState)
    (hd : dedupOn HistoryRecord.sessionId st.history) :
    dedupOn HistoryRecord.sessionId (patchHistory sid p st).history := by
  cases e : findFirstSplit (fun h => h.sessionId == sid) st.history with
  | none => simpa [patchHistory, e] using hd
  | some pr =>
    obtain ⟨h, rest⟩ := pr
    obtain ⟨pre, post, hl, hrest, _, _⟩ := findFirstSplit_sound e
    have hperm : st.history.Perm (h :: rest) := by
      rw [hl, hrest]
      exact List.perm_middle
    have hpk : (presentKeys HistoryRecord.sessionId st.history).Perm
        (presentKeys HistoryRecord.sessionId (h :: rest)) :=
      (hperm.map HistoryRecord.sessionId).filter truthy
    have hnd : (presentKeys HistoryRecord.sessionId (h :: rest)).Nodup :=
      hpk.nodup_iff.mp hd
    have hkeys : presentKeys HistoryRecord.sessionId (applyPatch h p :: rest) =
        presentKeys HistoryRecord.sessionId (h :: rest) := by
      simp [presentKeys, applyPatch_sessionId]
    show (presentKeys HistoryRecord.sessionId (patchHistory sid p st).history).Nodup
    have hhist : (patchHistory sid p st).history = applyPatch h p :: rest := by
      simp [patchHistory, e, saveHistory_history]
    rw [hhist, hkeys]
    exact hnd

theorem dedup_patchByRun_sessionId (rid : String) (p : Patch) (st : AppState)
    (hd : dedupOn HistoryRecord.sessionId st.history) :
    dedupOn HistoryRecord.sessionId (patchHistoryByRunId rid p st).history := by
  unfold patchHistoryByRunId
  cases g : st.history.any (fun h => h.runId == some rid) with
  | true =>
    simp only [g, if_true, saveHistory_history]
    show (presentKeys HistoryRecord.sessionId
      (patchFirst (fun h => h.runId == some rid) p st.history)).Nodup
    simp only [presentKeys, patchFirst_map_sessionId]
    exact hd
  | false => simpa [g] using hd

/-- C1 (amended): reconcile yields no two records sharing a present
runId nor two sharing a present sessionId, provided the server run list
itself carries pairwise-distinct run ids and pairwise-distinct non-null
session ids and the local list carries pairwise-distinct present runIds
and sessionIds; moreover present-runId uniqueness is preserved by
ensureHistoryFromRun and by search-result insertion (whose record has a
null runId), and present-sessionId uniqueness is preserved by both
patch operations. (The original unconditional claim fails: a server
list may repeat a session id, ensureHistoryFromRun does not guard
sessionId, and a patch may write a colliding runId.) -/
theorem reconcile_dedup_amended (runs : List Run) (nowIso : String) (st : AppState)
    (hR1 : (runs.map Run.id).Nodup)
    (hR2 : ((runs.map (fun r => orNull r.session_id)).filter truthy).Nodup)
    (hL1 : dedupOn HistoryRecord.runId st.history)
    (hL2 : dedupOn HistoryRecord.sessionId st.history) :
    dedupOn HistoryRecord.runId (loadHistoryFromServer runs nowIso st).history ∧
    dedupOn HistoryRecord.sessionId (loadHistoryFromServer runs nowIso st).history ∧
    (∀ (run : Run) (nowIso2 newId : String) (st2 : AppState),
      dedupOn HistoryRecord.runId st2.history →
      dedupOn HistoryRecord.runId (ensureHistoryFromRun run nowIso2 newId st2).history) ∧
    (∀ (rec : HistoryRecord) (st2 : AppState), rec.runId = none →
      dedupOn HistoryRecord.runId st2.history →
      dedupOn HistoryRecord.runId (insertFront rec st2).history) ∧
    (∀ (sid : Option String) (p : Patch) (st2 : AppState),
      dedupOn HistoryRecord.sessionId st2.history →
      dedupOn HistoryRecord.sessionId (patchHistory sid p st2).history) ∧
    (∀ (rid : String) (p : Patch) (st2 : AppState),
      dedupOn HistoryRecord.sessionId st2.history →
      dedupOn HistoryRecord.sessionId (patchHistoryByRunId rid p st2).history) :=
  ⟨dedup_reconcile_runId runs nowIso st hR1 hL1,
   dedup_reconcile_sessionId runs nowIso st hR2 hL2,
   fun run n2 i2 st2 hd => dedup_ensure run n2 i2 st2 hd,
   fun rec st2 hr hd => dedup_insert_noRun rec st2 hr hd,
   fun sid p st2 hd => dedup_patch_sessionId sid p st2 hd,
   fun rid p st2 hd => dedup_patchByRun_sessionId rid p st2 hd⟩

/-- C1 counterexample: a server run list whose two runs share session
id s1 makes reconcile produce two records with the same non-null
sessionId, so the unconditional dedup claim is false. -/
theorem reconcile_dedup_counterexample :
    ¬ dedupOn HistoryRecord.sessionId
      (loadHistoryFromServer [cRunDone, cRunDupSession] "t1" emptyState).history := by
  decide

/-- Witness for the amended C1 at a concrete well-formed input. -/
theorem reconcile_dedup_amended_witness :
    dedupOn HistoryRecord.runId
      (loadHistoryFromServer [cRunDone, cRunOther] "t1" cStateL).history ∧
    dedupOn HistoryRecord.sessionId
      (loadHistoryFromServer [cRunDone, cRunOther] "t1" cStateL).history :=
  ⟨(reconcile_dedup_amended [cRunDone, cRunOther] "t1" cStateL
      (by decide) (by decide) (by decide) (by decide)).1,
   (reconcile_dedup_amended [cRunDone, cRunOther] "t1" cStateL
      (by decide) (by decide) (by decide) (by decide)).2.1⟩

/-- Witness for C2 at a concrete input with a kept and a dropped local
record. -/
theorem reconcile_localOnly_spec_witness :
    (loadHistoryFromServer [cRunDone] "t1" cStateL).history =
      [cRunDone].map (fun r => mapRunToHistory r "t1") ++
      cStateL.history.filter (fun h => decide (localOnlySpec [cRunDone] h)) :=
  reconcile_localOnly_spec [cRunDone] "t1" cStateL (by decide)

theorem insertFront_history (rec : HistoryRecord) (st : AppState) :
    (insertFront rec st).history = rec :: st.history := rfl

theorem insertAll_history (recs : List HistoryRecord) (st : AppState) :
    (insertAll recs st).history = recs.reverse ++ st.history := by
  induction recs generalizing st with
  | nil => simp [insertAll]
  | cons r rs ih =>
    show (insertAll rs (insertFront r st)).history = (r :: rs).reverse ++ st.history
    rw [ih, insertFront_history, List.reverse_cons, List.append_assoc]
    rfl

theorem insertAll_saved_aux (rs : List HistoryRecord) :
    ∀ (r : HistoryRecord) (st : AppState),
      (insertAll rs (insertFront r st)).saved =
        (insertAll rs (insertFront r st)).history.take 100 := by
  induction rs with
  | nil => intro r st; rfl
  | cons r2 rs2 ih =>
    intro r st
    show (insertAll rs2 (insertFront r2 (insertFront r st))).saved =
      (insertAll rs2 (insertFront r2 (insertFront r st))).history.take 100
    exact ih r2 (insertFront r st)

theorem insertAll_saved (recs : List HistoryRecord) (st : AppState) (hne : recs ≠ []) :
    (insertAll recs st).saved = (insertAll recs st).history.take 100 := by
  cases recs with
  | nil => exact absurd rfl hne
  | cons r rs => exact insertAll_saved_aux rs r st

/-- C3 (amended): for any non-empty sequence of front insertions the
in-memory store accumulates every inserted record, newest first, with
no eviction, while the persisted copy written by saveHistory is exactly
the first (most recent) 100 entries of that in-memory store, hence
never more than 100 records. The at-most-100 bound of the original
claim holds for the persisted copy only. -/
theorem store_cap_amended (recs : List HistoryRecord) (st : AppState) (hne : recs ≠ []) :
    (insertAll recs st).history = recs.reverse ++ st.history ∧
    (insertAll recs st).history.length = recs.length + st.history.length ∧
    (insertAll recs st).saved = (recs.reverse ++ st.history).take 100 ∧
    (insertAll recs st).saved.length ≤ 100 := by
  have h1 := insertAll_history recs st
  have h2 := insertAll_saved recs st hne
  refine ⟨h1, ?_, ?_, ?_⟩
  · rw [h1]
    simp
  · rw [h2, h1]
  · rw [h2, h1, List.length_take]
    exact min_le_left _ _

/-- C3 counterexample: after 101 front insertions into the empty state
the in-memory record store holds 101 records; nothing evicts the tail
of the in-memory array, only the persisted snapshot is truncated. -/
theorem store_cap_counterexample :
    100 < (insertAll (mkRecs 101) emptyState).history.length := by
  rw [insertAll_history]
  have hl : ((mkRecs 101).reverse ++ emptyState.history).length = 101 := by
    simp [mkRecs, emptyState]
  rw [hl]
  decide

/-- Witness for the amended C3 at a concrete two-record insertion. -/
theorem store_cap_amended_witness :
    (insertAll [mkRec "w1", mkRec "w2"] emptyState).history =
      [mkRec "w1", mkRec "w2"].reverse ++ emptyState.history :=
  (store_cap_amended [mkRec "w1", mkRec "w2"] emptyState (by decide)).1

theorem patchHistory_hit (st : AppState) (sid : Option String) (p : Patch)
    (pre : List HistoryRecord) (h : HistoryRecord) (post : List HistoryRecord)
    (hhist : st.history = pre ++ h :: post)
    (hpre : ∀ x ∈ pre, (x.sessionId == sid) = false)
    (hh : (h.sessionId == sid) = true) :
    patchHistory sid p st =
      { st with
        history := applyPatch h p :: (pre ++ post),
        activeHistoryId := some (applyPatch h p).id,
        saved := (applyPatch h p :: (pre ++ post)).take 100 } := by
  have e : findFirstSplit (fun x => x.sessionId == sid) st.history = some (h, pre ++ post) := by
    rw [hhist]
    exact findFirstSplit_append pre h post hpre hh
  simp [patchHistory, e, saveHistory]

theorem patchHistoryByRunId_hit (st : AppState) (rid : String) (p : Patch)
    (pre : List HistoryRecord) (h : HistoryRecord) (post : List HistoryRecord)
    (hhist : st.history = pre ++ h :: post)
    (hpre : ∀ x ∈ pre, (x.runId == some rid) = false)
    (hh : (h.runId == some rid) = true) :
    patchHistoryByRunId rid p st =
      { st with
        history := pre ++ applyPatch h p :: post,
        saved := (pre ++ applyPatch h p :: post).take 100 } := by
  have g : st.history.any (fun x => x.runId == some rid) = true := by
    rw [hhist]
    exact List.any_eq_true.mpr ⟨h, by simp, hh⟩
  have hp : patchFirst (fun x => x.runId == some rid) p st.history =
      pre ++ applyPatch h p :: post := by
    rw [hhist]
    exact patchFirst_append p pre h post hpre hh
  simp [patchHistoryByRunId, g, hp, saveHistory]

/-- C4 (amended): when a record matching the key exists, patchHistory
shallow-merges the named fields over the first match, sets the active
pointer to it, promotes it to the front, and persists the truncated
store before returning; patchHistoryByRunId shallow-merges and persists
but leaves the record at its position (no promotion), and neither
operation touches updatedAt beyond what the patch object itself
carries (every session-patch call site passes the current time in the
patch; the synopsis patch does not). -/
theorem patch_engine_behavior (st : AppState) (sid : Option String) (rid : String)
    (p : Patch) (pre : List HistoryRecord) (h : HistoryRecord) (post : List HistoryRecord)
    (hhist : st.history = pre ++ h :: post) :
    ((∀ x ∈ pre, (x.sessionId == sid) = false) → (h.sessionId == sid) = true →
      patchHistory sid p st =
        { st with
          history := applyPatch h p :: (pre ++ post),
          activeHistoryId := some (applyPatch h p).id,
          saved := (applyPatch h p :: (pre ++ post)).take 100 }) ∧
    ((∀ x ∈ pre, (x.runId == some rid) = false) → (h.runId == some rid) = true →
      patchHistoryByRunId rid p st =
        { st with
          history := pre ++ applyPatch h p :: post,
          saved := (pre ++ applyPatch h p :: post).take 100 }) :=
  ⟨fun hpre hh => patchHistory_hit st sid p pre h post hhist hpre hh,
   fun hpre hh => patchHistoryByRunId_hit st rid p pre h post hhist hpre hh⟩

/-- C4 counterexample: patching by runId r1 in a store whose r1 record
is in second position leaves it in second position (the front record
still carries runId r2) and leaves its updatedAt unchanged, refuting
the claimed promotion-to-front (and intrinsic updatedAt update) of
patchByRun. -/
theorem patch_promote_counterexample :
    (patchHistoryByRunId "r1" cPatch cSt4).history = [cA, applyPatch cB cPatch] ∧
    (applyPatch cB cPatch).updatedAt = cB.updatedAt ∧
    cA.runId = some "r2" ∧ cB.runId = some "r1" := by
  decide

/-- Witness for the amended C4 on a concrete two-record store. -/
theorem patch_engine_behavior_witness :
    patchHistory none cPatch cSt4 =
      { cSt4 with
        history := applyPatch cA cPatch :: ([] ++ [cB]),
        activeHistoryId := some (applyPatch cA cPatch).id,
        saved := (applyPatch cA cPatch :: ([] ++ [cB])).take 100 } ∧
    patchHistoryByRunId "r1" cPatch cSt4 =
      { cSt4 with
        history := [cA] ++ applyPatch cB cPatch :: [],
        saved := ([cA] ++ applyPatch cB cPatch :: []).take 100 } :=
  ⟨(patch_engine_behavior cSt4 none "r1" cPatch [] cA [cB] rfl).1
      (by decide) (by decide),
   (patch_engine_behavior cSt4 none "r1" cPatch [cA] cB [] rfl).2
      (by decide) (by decide)⟩

/-- C5: the spread merge is additive or overwriting per named field and
never destructive of sibling fields: every record field without a
corresponding patch key (id, sessionId, createdAt, query, xlsPath,
matchesCount, referenceOptionsCount) is always unchanged, and every
patchable field is unchanged whenever the patch does not name it. -/
theorem patch_frame_preservation (h : HistoryRecord) (p : Patch) :
    (applyPatch h p).id = h.id ∧
    (applyPatch h p).sessionId = h.sessionId ∧
    (applyPatch h p).createdAt = h.createdAt ∧
    (applyPatch h p).query = h.query ∧
    (applyPatch h p).xlsPath = h.xlsPath ∧
    (applyPatch h p).matchesCount = h.matchesCount ∧
    (applyPatch h p).referenceOptionsCount = h.referenceOptionsCount ∧
    (p.updatedAt = none → (applyPatch h p).updatedAt = h.updatedAt) ∧
    (p.selectedReferenceDrug = none →
      (applyPatch h p).selectedReferenceDrug = h.selectedReferenceDrug) ∧
    (p.selectionJsonPath = none →
      (applyPatch h p).selectionJsonPath = h.selectionJsonPath) ∧
    (p.routerOutputPath = none →
      (applyPatch h p).routerOutputPath = h.routerOutputPath) ∧
    (p.analysisPreview = none →
      (applyPatch h p).analysisPreview = h.analysisPreview) ∧
    (p.analysisText = none → (applyPatch h p).analysisText = h.analysisText) ∧
    (p.selectionRows = none → (applyPatch h p).selectionRows = h.selectionRows) ∧
    (p.runId = none → (applyPatch h p).runId = h.runId) ∧
    (p.synopsisRunId = none → (applyPatch h p).synopsisRunId = h.synopsisRunId) ∧
    (p.synopsisDocxUrl = none →
      (applyPatch h p).synopsisDocxUrl = h.synopsisDocxUrl) ∧
    (p.synopsisStatus = none →
      (applyPatch h p).synopsisStatus = h.synopsisStatus) := by
  refine ⟨rfl, rfl, rfl, rfl, rfl, rfl, rfl,
    ?_, ?_, ?_, ?_, ?_, ?_, ?_, ?_, ?_, ?_, ?_⟩ <;>
    (intro e; simp [applyPatch, e])

/-- Witness for C5: a patch naming only selectedReferenceDrug leaves
both analysisText and runId unchanged. -/
theorem patch_frame_preservation_witness :
    (applyPatch (mkRec "h0") cPatch).analysisText = (mkRec "h0").analysisText ∧
    (applyPatch (mkRec "h0") cPatch).runId = (mkRec "h0").runId := by
  refine ⟨?_, ?_⟩
  · exact (patch_frame_preservation (mkRec "h0") cPatch).2.2.2.2.2.2.2.2.2.2.2.2.1 rfl
  · exact (patch_frame_preservation (mkRec "h0") cPatch).2.2.2.2.2.2.2.2.2.2.2.2.2.2.1 rfl

/-- C9: a patch whose key matches no record is a silent no-op for both
patchHistory and patchHistoryByRunId: the state is returned entirely
unchanged, no record is created, and no failure is signalled (both
functions are total). -/
theorem patch_miss_noop (st : AppState) (sid : Option String) (rid : String) (p : Patch) :
    ((∀ h ∈ st.history, (h.sessionId == sid) = false) → patchHistory sid p st = st) ∧
    ((∀ h ∈ st.history, (h.runId == some rid) = false) →
      patchHistoryByRunId rid p st = st) := by
  constructor
  · intro hall
    simp [patchHistory, findFirstSplit_none hall]
  · intro hall
    have g : st.history.any (fun h => h.runId == some rid) = false := by
      cases hc : st.history.any (fun h => h.runId == some rid)
      · rfl
      · obtain ⟨x, hx, hpx⟩ := List.any_eq_true.mp hc
        rw [hall x hx] at hpx
        exact Bool.noConfusion hpx
    simp [patchHistoryByRunId, g]

/-- Witness for C9 on a store containing no record for the keys. -/
theorem patch_miss_noop_witness :
    patchHistory (some "zz") cPatch cSt4 = cSt4 ∧
    patchHistoryByRunId "rz" cPatch cSt4 = cSt4 :=
  ⟨(patch_miss_noop cSt4 (some "zz") "rz" cPatch).1 (by decide),
   (patch_miss_noop cSt4 (some "zz") "rz" cPatch).2 (by decide)⟩

/-- C10: a session patch that finds a match sets the global active
pointer to the matched record's id (the poller's done path reaches this
through updateHistoryFromPipeline, which calls patchHistory, so a
background completion also moves the pointer), while patchHistoryByRunId
never changes the active pointer. -/
theorem patch_active_pointer (st : AppState) (sid : Option String) (rid : String)
    (p : Patch) (pre : List HistoryRecord) (h : HistoryRecord) (post : List HistoryRecord)
    (hhist : st.history = pre ++ h :: post) :
    ((∀ x ∈ pre, (x.sessionId == sid) = false) → (h.sessionId == sid) = true →
      (patchHistory sid p st).activeHistoryId = some h.id) ∧
    (patchHistoryByRunId rid p st).activeHistoryId = st.activeHistoryId := by
  constructor
  · intro hpre hh
    rw [patchHistory_hit st sid p pre h post hhist hpre hh]
    rfl
  · unfold patchHistoryByRunId
    cases g : st.history.any (fun x => x.runId == some rid) <;> simp [g, saveHistory]

/-- Witness for C10 on a concrete two-record store. -/
theorem patch_active_pointer_witness :
    (patchHistory none cPatch cSt4).activeHistoryId = some cA.id ∧
    (patchHistoryByRunId "r1" cPatch cSt4).activeHistoryId = cSt4.activeHistoryId :=
  ⟨(patch_active_pointer cSt4 none "r1" cPatch [] cA [cB] rfl).1
      (by decide) (by decide),
   (patch_active_pointer cSt4 none "r1" cPatch [] cA [cB] rfl).2⟩

theorem applyPatch_same_twice (h : HistoryRecord) (p : Patch) (t₁ t₂ : String) :
    applyPatch (applyPatch h { p with updatedAt := some t₁ })
        { p with updatedAt := some t₂ } =
      applyPatch h { p with updatedAt := some t₂ } := by
  cases p
  simp [applyPatch, opt_getD_absorb]

/-- C6: applying the same (sessionId, fields) patch twice, the second
application carrying the later current-time updatedAt, yields exactly
the state of a single application at that later time: the record state
is therefore the same as after one application apart from updatedAt,
and the store order, active pointer and persisted copy also agree. -/
theorem patch_idempotent (st : AppState) (sid : Option String) (p : Patch)
    (t₁ t₂ : String) :
    patchHistory sid { p with updatedAt := some t₂ }
        (patchHistory sid { p with updatedAt := some t₁ } st) =
      patchHistory sid { p with updatedAt := some t₂ } st := by
  cases e : findFirstSplit (fun h => h.sessionId == sid) st.history with
  | none =>
    have h1 : patchHistory sid { p with updatedAt := some t₁ } st = st := by
      simp [patchHistory, e]
    rw [h1]
  | some pr =>
    obtain ⟨h, rest⟩ := pr
    obtain ⟨pre, post, _, _, _, hh⟩ := findFirstSplit_sound e
    have h1 : patchHistory sid { p with updatedAt := some t₁ } st =
        { st with
          history := applyPatch h { p with updatedAt := some t₁ } :: rest,
          activeHistoryId := some (applyPatch h { p with updatedAt := some t₁ }).id,
          saved := (applyPatch h { p with updatedAt := some t₁ } :: rest).take 100 } := by
      simp [patchHistory, e, saveHistory]
    have h2 : patchHistory sid { p with updatedAt := some t₂ } st =
        { st with
          history := applyPatch h { p with updatedAt := some t₂ } :: rest,
          activeHistoryId := some (applyPatch h { p with updatedAt := some t₂ }).id,
          saved := (applyPatch h { p with updatedAt := some t₂ } :: rest).take 100 } := by
      simp [patchHistory, e, saveHistory]
    have hpred : ((applyPatch h { p with updatedAt := some t₁ }).sessionId == sid) = true := by
      rw [applyPatch_sessionId]
      exact hh
    have e2 : findFirstSplit (fun x => x.sessionId == sid)
        (applyPatch h { p with updatedAt := some t₁ } :: rest) =
        some (applyPatch h { p with updatedAt := some t₁ }, rest) := by
      rw [findFirstSplit, if_pos hpred]
    rw [h1, h2]
    simp [patchHistory, e2, saveHistory, applyPatch_same_twice, applyPatch_recId]

theorem patchHistory_preserves_pending (sid : Option String) (p : Patch) (st : AppState) :
    (patchHistory sid p st).pendingRunId = st.pendingRunId ∧
    (patchHistory sid p st).pendingMessageShown = st.pendingMessageShown ∧
    (patchHistory sid p st).runningRunIds = st.runningRunIds ∧
    (patchHistory sid p st).runningBySession = st.runningBySession := by
  cases e : findFirstSplit (fun h => h.sessionId == sid) st.history with
  | none => simp [patchHistory, e]
  | some pr =>
    obtain ⟨h, rest⟩ := pr
    simp [patchHistory, e, saveHistory]

theorem ensure_preserves_pending (run : Run) (nowIso newId : String) (st : AppState) :
    (ensureHistoryFromRun run nowIso newId st).pendingRunId = st.pendingRunId ∧
    (ensureHistoryFromRun run nowIso newId st).pendingMessageShown = st.pendingMessageShown ∧
    (ensureHistoryFromRun run nowIso newId st).runningRunIds = st.runningRunIds ∧
    (ensureHistoryFromRun run nowIso newId st).runningBySession = st.runningBySession := by
  cases g : st.history.any (fun h => h.runId == some run.id) <;>
    simp [ensureHistoryFromRun, g, saveHistory]

theorem pipelinePatch_preserves_pending (result : PipelineResult) (nowIso : String)
    (st : AppState) :
    (updateHistoryFromPipeline result nowIso st).pendingRunId = st.pendingRunId ∧
    (updateHistoryFromPipeline result nowIso st).pendingMessageShown =
      st.pendingMessageShown ∧
    (updateHistoryFromPipeline result nowIso st).runningRunIds = st.runningRunIds ∧
    (updateHistoryFromPipeline result nowIso st).runningBySession =
      st.runningBySession := by
  unfold updateHistoryFromPipeline
  exact patchHistory_preserves_pending _ _ _

theorem clearPending_notMem (runId : String) (run : Run) (st : AppState) :
    runId ∉ (clearPendingForRun runId run st).runningRunIds := by
  simp [clearPendingForRun, List.mem_filter]

theorem mapGet_mapDelete (m : List (String × String)) (k : String) :
    mapGet (mapDelete m k) k = none := by
  induction m with
  | nil => rfl
  | cons kv rest ih =>
    obtain ⟨k1, v1⟩ := kv
    rw [mapDelete, List.filter_cons]
    by_cases hk : k1 = k
    · rw [if_neg (by simp [hk])]
      exact ih
    · rw [if_pos (by simp [hk])]
      show mapGet ((k1, v1) :: mapDelete rest k) k = none
      rw [mapGet, if_neg hk]
      exact ih

theorem clearPending_session (runId : String) (run : Run) (st : AppState) (s : String)
    (hs : run.session_id = some s) (hne : s ≠ "") :
    mapGet (clearPendingForRun runId run st).runningBySession s ≠ some runId := by
  simp only [clearPendingForRun, hs]
  cases hb : (mapGet st.runningBySession s == some runId) with
  | true =>
    rw [if_pos (by simp [hne, hb])]
    rw [mapGet_mapDelete]
    simp
  | false =>
    rw [if_neg (by simp [hb])]
    intro hcon
    rw [hcon] at hb
    simp at hb

theorem pollStep_done (runId nowIso newId : String) (run : Run) (st : AppState)
    (hdone : run.status = "done") :
    pollStep runId nowIso newId (.ok (some run)) st =
      (updateHistoryFromPipeline (buildPipelineResultFromRun run) nowIso
        (ensureHistoryFromRun run nowIso newId (clearPendingForRun runId run st)),
       .stop) := by
  simp [pollStep, hdone]

/-- C7: each poll step fetches once and then either retries or stops:
a missing run in the response, a non-done status, or a transport or
timeout error all schedule exactly one retry of the same fetch after
the fixed RUN_POLL_MS (3.5 s) delay with the state untouched; a done
run makes the step stop, clear the pending indicator and the
running-run bookkeeping for this run and its session, and feed the done
run's payload through materialization and the session patch. For a run
observed running, running, done across three successive fetches the
loop issues exactly three fetches, terminates, and ends in the state of
the done transition applied to the starting state. -/
theorem poller_step_behavior (runId nowIso newId : String) (st : AppState) :
    RUN_POLL_MS = 3500 ∧
    (∀ run : Run, run.status ≠ "done" →
      pollStep runId nowIso newId (.ok (some run)) st = (st, .scheduleRetry RUN_POLL_MS)) ∧
    pollStep runId nowIso newId (.ok none) st = (st, .scheduleRetry RUN_POLL_MS) ∧
    pollStep runId nowIso newId .error st = (st, .scheduleRetry RUN_POLL_MS) ∧
    (∀ run : Run, run.status = "done" →
      (pollStep runId nowIso newId (.ok (some run)) st).2 = .stop ∧
      (pollStep runId nowIso newId (.ok (some run)) st).1 =
        updateHistoryFromPipeline (buildPipelineResultFromRun run) nowIso
          (ensureHistoryFromRun run nowIso newId (clearPendingForRun runId run st)) ∧
      (pollStep runId nowIso newId (.ok (some run)) st).1.pendingRunId = none ∧
      (pollStep runId nowIso newId (.ok (some run)) st).1.pendingMessageShown = false ∧
      runId ∉ (pollStep runId nowIso newId (.ok (some run)) st).1.runningRunIds ∧
      (∀ s, run.session_id = some s → s ≠ "" →
        mapGet (pollStep runId nowIso newId (.ok (some run)) st).1.runningBySession s ≠
          some runId)) ∧
    (∀ (run₁ run₂ run₃ : Run) (rest : List FetchResult),
      run₁.status = "running" → run₂.status = "running" → run₃.status = "done" →
      pollTrace runId nowIso newId
          (.ok (some run₁) :: .ok (some run₂) :: .ok (some run₃) :: rest) st =
        (3, (pollStep runId nowIso newId (.ok (some run₃)) st).1, true)) := by
  refine ⟨rfl, ?_, ?_, ?_, ?_, ?_⟩
  · intro run hne
    simp [pollStep, hne]
  · rfl
  · rfl
  · intro run hdone
    rw [pollStep_done runId nowIso newId run st hdone]
    have hc1 := (pipelinePatch_preserves_pending (buildPipelineResultFromRun run) nowIso
      (ensureHistoryFromRun run nowIso newId (clearPendingForRun runId run st)))
    have hc2 := ensure_preserves_pending run nowIso newId (clearPendingForRun runId run st)
    refine ⟨rfl, rfl, ?_, ?_, ?_, ?_⟩
    · rw [hc1.1, hc2.1]; rfl
    · rw [hc1.2.1, hc2.2.1]; rfl
    · rw [hc1.2.2.1, hc2.2.2.1]
      exact clearPending_notMem runId run st
    · intro s hs hne
      rw [hc1.2.2.2, hc2.2.2.2]
      exact clearPending_session runId run st s hs hne
  · intro run₁ run₂ run₃ rest h1 h2 h3
    have s1 : pollStep runId nowIso newId (.ok (some run₁)) st =
        (st, .scheduleRetry RUN_POLL_MS) := by
      simp [pollStep, h1]
    have s2 : pollStep runId nowIso newId (.ok (some run₂)) st =
        (st, .scheduleRetry RUN_POLL_MS) := by
      simp [pollStep, h2]
    have s3 := pollStep_done runId nowIso newId run₃ st h3
    simp [pollTrace, s1, s2, s3]

/-- Witness for C7: a concrete running, running, done trace issues three
fetches and terminates in the done-transition state. -/
theorem poller_step_behavior_witness :
    pollTrace "r1" "t1" "n1"
        [.ok (some cRunRun), .ok (some cRunRun), .ok (some cRunDone)] emptyState =
      (3, (pollStep "r1" "t1" "n1" (.ok (some cRunDone)) emptyState).1, true) :=
  (poller_step_behavior "r1" "t1" "n1" emptyState).2.2.2.2.2 cRunRun cRunRun cRunDone []
    rfl rfl rfl

/-- C8 (amended): a request to start a poller computes the pending key
(the confirmed running run id, or the synthetic session token), and a
request whose key equals the currently tracked global pending key, or
which yields no key at all, is a complete no-op: the state is unchanged
and no poll loop is started. This deduplication is per key only, not
system-wide: an already-live poll loop is never cancelled when the
pending key changes, so starting a poller for a different key while one
is still live leaves several pollers active at once. -/
theorem pending_key_noop (record : HistoryRecord) (sys : PollSystem)
    (hkey : pendingKeyFor sys.app record = none ∨
      pendingKeyFor sys.app record = sys.app.pendingRunId) :
    maybeShowRunningForRecord record sys = sys := by
  cases e : pendingKeyFor sys.app record with
  | none => simp [maybeShowRunningForRecord, e]
  | some key =>
    rcases hkey with h | h
    · rw [e] at h
      exact Option.noConfusion h
    · rw [e] at h
      simp [maybeShowRunningForRecord, e, ← h]

/-- C8 counterexample: with runs r1 and r2 both reported running,
showing the record tied to r1 and then the record tied to r2 starts two
poll loops; neither loop has observed a done status, so both are live
at once and the at-most-one-poller-system-wide claim is false. -/
theorem single_poller_counterexample :
    (maybeShowRunningForRecord cRecR2
      (maybeShowRunningForRecord cRecR1 cSys0)).activePolls.length = 2 := by
  decide

/-- Witness for the amended C8: repeating the start request for the
already-tracked key r1 changes nothing and starts no second loop. -/
theorem pending_key_noop_witness :
    maybeShowRunningForRecord cRecR1 cSys1 = cSys1 :=
  pending_key_noop cRecR1 cSys1 (Or.inr (by decide))

end App
